import Mathlib

/-!
Verification of the tiered object store, the cache manager and the quota
enforcer of the Codex repository.

The JavaScript sources are embedded shallowly:

* JS `Map`s become association lists with JS `Map` semantics (first binding
  wins on lookup, `set` overwrites in place, `delete` removes the binding);
* byte buffers become `List Nat`; file paths become lists of their
  slash-separated segments, so `a + "/" + b` is `a :: b`;
* the external primitives the store calls (zlib gzip/brotli, openssl
  aes-256-cbc, sha-256) are parameters of the embedding (`Codec`, `Cipher`,
  a hash function); their documented behaviour (codec round trip, hash
  collision freedom) is assumed only as an explicit hypothesis where a
  theorem needs it;
* the ambient time `Date.now()` and the random iv `crypto.randomBytes(16)`
  are passed in explicitly;
* `useReplitStorage` is always `false` after `initialize` (part_007 line 39),
  so only the local-storage branches of the source are executed and embedded.
-/

set_option autoImplicit false

namespace Codex

abbrev Bytes := List Nat

/-- A path, as the list of its slash-separated segments. -/
abbrev Key := List String

section AList

variable {κ : Type} {ν : Type} [DecidableEq κ]

/-- JS `Map.get` / first match of a lookup: the first binding of the key. -/
def mapGet : List (κ × ν) → κ → Option ν
  | [], _ => none
  | p :: rest, k => if p.1 = k then some p.2 else mapGet rest k

/-- JS `Map.set`: overwrite the existing binding in place, else append. -/
def mapSet (l : List (κ × ν)) (k : κ) (v : ν) : List (κ × ν) :=
  if (mapGet l k).isSome then
    l.map (fun p => if p.1 = k then (k, v) else p)
  else l ++ [(k, v)]

/-- JS `Map.delete` (and `fs.unlink`): remove the first binding of the key;
removing an absent key is a no-op. -/
def mapDelete : List (κ × ν) → κ → List (κ × ν)
  | [], _ => []
  | p :: rest, k => if p.1 = k then rest else p :: mapDelete rest k

/-- `for (const [k, v] of m.entries()) if (v === x) { m.delete(k); break }` -/
def removeFirstByValue [DecidableEq ν] : List (κ × ν) → ν → List (κ × ν)
  | [], _ => []
  | p :: rest, v => if p.2 = v then rest else p :: removeFirstByValue rest v

/-- `for (const [k, v] of m.entries()) if (v === x) { m.set(k, y); break }` -/
def updateFirstByValue [DecidableEq ν] : List (κ × ν) → ν → ν → List (κ × ν)
  | [], _, _ => []
  | p :: rest, v, v2 =>
    if p.2 = v then (p.1, v2) :: rest else p :: updateFirstByValue rest v v2

end AList

/-- A stateless lossless compression codec (zlib gzip or brotli). -/
structure Codec where
  comp : Bytes → Bytes
  decomp : Bytes → Bytes

/-- A symmetric cipher with an explicit initialization vector
(`crypto.createCipheriv('aes-256-cbc', key, iv)`). -/
structure Cipher where
  enc : String → Bytes → Bytes → Bytes
  dec : String → Bytes → Bytes → Bytes

/-- The external primitives `ObjectStorage` calls, as embedding parameters. -/
structure OSConfig where
  gzip : Codec
  brotli : Codec
  aes : Cipher
  sha256 : Bytes → String

namespace ObjectStorage

/-- part_007 lines 76-81. -/
def compressData (cfg : OSConfig) (algorithm : String) (data : Bytes) : Bytes :=
  if algorithm = "brotli" then cfg.brotli.comp data else cfg.gzip.comp data

/-- part_007 lines 83-88. -/
def decompressData (cfg : OSConfig) (algorithm : String) (data : Bytes) : Bytes :=
  if algorithm = "brotli" then cfg.brotli.decomp data else cfg.gzip.decomp data

/-- part_007 lines 90-97; an unknown tier falls back to the warm directory. -/
def getTierDirectory (tier : String) : String :=
  if tier = "hot" then "hot"
  else if tier = "warm" then "warm"
  else if tier = "cold" then "cold"
  else "warm"

/-- The mutable state of an `ObjectStorage` instance: the tier directories
(files addressed by tier directory and path) and the in-memory
deduplication map (content hash to tier-qualified storage key). -/
structure State where
  files : List ((String × Key) × Bytes)
  deduplicationMap : List (String × Key)
  deriving DecidableEq

/-- The options object of `store` with its defaults (part_007 lines 100-107);
`enableDedup` defaults to `this.enableDeduplication`, which is `true` unless
configured off (line 23). -/
structure StoreOptions where
  tier : String := "warm"
  compress : Bool := true
  compressionAlgorithm : String := "gzip"
  encrypt : Bool := false
  encryptionKey : Option String := none
  enableDedup : Bool := true

/-- The result object of `store`; JS fields absent from one of the two
return sites are `none`. -/
structure StoreResult where
  key : Key
  path : Key
  tier : String
  originalSize : Nat
  deduplicated : Bool
  dedupHash : Option String
  storedSize : Option Nat
  compressedSize : Option Nat
  compressionRatio : Option ℚ
  compressed : Option Bool
  encrypted : Option Bool
  compressionAlgorithm : Option String
  deriving DecidableEq

/-- The codec pipeline of `store` (part_007 lines 132-145): compress if
requested, then, if `encrypt` is set AND a key is present, prepend the
16-byte iv to the ciphertext.  The cipher key is the first 64 characters of
the supplied hex key (`encryptionKey.substring(0, 64)`). -/
def transformForStore (cfg : OSConfig) (data : Bytes) (opts : StoreOptions)
    (iv : Bytes) : Bytes :=
  let data1 :=
    if opts.compress then compressData cfg opts.compressionAlgorithm data
    else data
  match opts.encrypt, opts.encryptionKey with
  | true, some k => iv ++ cfg.aes.enc (k.take 64) iv data1
  | _, _ => data1

/-- part_007 lines 128-182: the path of `store` taken after the
deduplication check (read, compress, encrypt, write to the tier directory
under the bare key, lines 159-162, update the dedup index, build the result). -/
def storeNew (cfg : OSConfig) (s : State) (key : Key) (data : Bytes)
    (opts : StoreOptions) (iv : Bytes) (dedupHash : Option String) :
    State × StoreResult :=
  let originalSize := data.length
  let compressedSize :=
    if opts.compress then (compressData cfg opts.compressionAlgorithm data).length
    else originalSize
  let payload := transformForStore cfg data opts iv
  let storageKey := opts.tier :: key
  let files1 := mapSet s.files (getTierDirectory opts.tier, key) payload
  let dmap1 :=
    match dedupHash with
    | some h => mapSet s.deduplicationMap h storageKey
    | none => s.deduplicationMap
  (⟨files1, dmap1⟩,
   { key := storageKey, path := storageKey, tier := opts.tier,
     originalSize := originalSize, deduplicated := false,
     dedupHash := dedupHash, storedSize := none,
     compressedSize := some compressedSize,
     compressionRatio := some (if 0 < originalSize then
       1 - (compressedSize : ℚ) / (originalSize : ℚ) else 0),
     compressed := some opts.compress, encrypted := some opts.encrypt,
     compressionAlgorithm :=
       if opts.compress then some opts.compressionAlgorithm else none })

/-- part_007 lines 99-183: `store(key, filePath, options)`; `data` is the
content of the source file, `iv` the 16 random bytes drawn at line 141.
If dedup is enabled and the content hash is already indexed, the existing
storage key is returned with `storedSize = 0` and nothing is written. -/
def store (cfg : OSConfig) (s : State) (key : Key) (data : Bytes)
    (opts : StoreOptions) (iv : Bytes) : State × StoreResult :=
  if opts.enableDedup then
    let h := cfg.sha256 data
    match mapGet s.deduplicationMap h with
    | some existingKey =>
      (s, { key := existingKey, path := existingKey, tier := opts.tier,
            originalSize := data.length, deduplicated := true,
            dedupHash := some h, storedSize := some 0,
            compressedSize := none, compressionRatio := none,
            compressed := none, encrypted := none,
            compressionAlgorithm := none })
    | none => storeNew cfg s key data opts iv (some h)
  else storeNew cfg s key data opts iv none

/-- `store` when the final `fs.writeFile` (part_007 line 162) is interrupted
after `k` bytes.  The code writes directly to the final tier path — there is
no temporary path and no rename — so the `k`-byte prefix of the transformed
payload is what sits at the object's path; the deduplication index update
(lines 165-168) is never reached. -/
def storeInterruptedWrite (cfg : OSConfig) (s : State) (key : Key)
    (data : Bytes) (opts : StoreOptions) (iv : Bytes) (k : Nat) : State :=
  { s with files := (mapSet s.files (getTierDirectory opts.tier, key)
      ((transformForStore cfg data opts iv).take k)) }

/-- The `compressedSize` a non-deduplicated `store` reports (part_007
lines 133-137): the length of the compressed bytes if compression ran,
else the input length. -/
def storedLength (cfg : OSConfig) (data : Bytes) (opts : StoreOptions) : Nat :=
  if opts.compress then (compressData cfg opts.compressionAlgorithm data).length
  else data.length

/-- part_007 line 195 (also 243, 269, 304): strip the tier prefix.  JS:
`key.includes('/') ? key.split('/').slice(1).join('/') : key`; in the
segment representation a string contains a slash exactly when it has at
least two segments. -/
def baseKeyOf (key : Key) : Key :=
  if 2 ≤ key.length then key.drop 1 else key

/-- The options object of `retrieve` (part_007 lines 186-191). -/
structure RetrieveOptions where
  decompress : Bool := true
  compressionAlgorithm : String := "gzip"
  decrypt : Bool := false
  decryptionKey : Option String := none

/-- part_007 lines 185-239: `retrieve(key, tier, options)`.  With
`useReplitStorage = false` a local miss throws (`none`); otherwise the
object's bytes are decrypted (strip the 16-byte iv, decipher) if `decrypt`
is set AND a key is present, then decompressed if `decompress` is set. -/
def retrieve (cfg : OSConfig) (s : State) (key : Key) (tier : String)
    (opts : RetrieveOptions) : Option Bytes :=
  let baseKey := baseKeyOf key
  match mapGet s.files (getTierDirectory tier, baseKey) with
  | none => none
  | some data0 =>
    let data1 :=
      match opts.decrypt, opts.decryptionKey with
      | true, some k => cfg.aes.dec (k.take 64) (data0.take 16) (data0.drop 16)
      | _, _ => data0
    some (if opts.decompress then
      decompressData cfg opts.compressionAlgorithm data1 else data1)

/-- part_007 lines 266-300: `delete(key, tier)` unlinks the local file
(ignoring absence), removes the first deduplication entry whose value is
the storage key, and returns `true`. -/
def delete (s : State) (key : Key) (tier : String) : State × Bool :=
  let storageKey := key
  let baseKey := baseKeyOf key
  let files1 := mapDelete s.files (getTierDirectory tier, baseKey)
  let dmap1 := removeFirstByValue s.deduplicationMap storageKey
  (⟨files1, dmap1⟩, true)

/-- The local `fs.rename(fromPath, toPath)` of part_007 lines 332-337: one
atomic step moving the object between tier directories; a missing source is
caught and logged, leaving the state unchanged. -/
def renameStep (s : State) (fromTier toTier : String) (baseKey : Key) : State :=
  match mapGet s.files (getTierDirectory fromTier, baseKey) with
  | some b =>
    { s with files := (mapSet (mapDelete s.files (getTierDirectory fromTier, baseKey))
        (getTierDirectory toTier, baseKey) b) }
  | none => s

/-- part_007 lines 339-346: repoint the first deduplication entry holding
the old storage key at the new one. -/
def indexStep (s : State) (oldKey newKey : Key) : State :=
  { s with deduplicationMap := updateFirstByValue s.deduplicationMap oldKey newKey }

/-- part_007 lines 302-350: `moveTier(key, fromTier, toTier)` on local
storage: a single rename followed by the dedup index update. -/
def moveTier (s : State) (key : Key) (fromTier toTier : String) : State × Key :=
  let baseKey := baseKeyOf key
  let oldStorageKey := fromTier :: baseKey
  let newStorageKey := toTier :: baseKey
  let s1 := renameStep s fromTier toTier baseKey
  let s2 := indexStep s1 oldStorageKey newStorageKey
  (s2, newStorageKey)

/-- Every storage state a reader concurrent with `moveTier` can observe:
before the move, after the rename, after the index update. -/
def moveTierStates (s : State) (key : Key) (fromTier toTier : String) :
    List State :=
  [s, renameStep s fromTier toTier (baseKeyOf key),
   (moveTier s key fromTier toTier).1]

/-- The object addressed by `baseKey` is physically present in both of the
two tier directories in state `st`. -/
def inBothTiers (st : State) (t1 t2 : String) (baseKey : Key) : Bool :=
  (mapGet st.files (getTierDirectory t1, baseKey)).isSome &&
  (mapGet st.files (getTierDirectory t2, baseKey)).isSome

/-- Some observable state in the list shows the object in both tiers at
once (the window a copy-then-delete move would open). -/
def someBothTiersState (l : List State) (t1 t2 : String) (baseKey : Key) : Bool :=
  l.any (fun st => inBothTiers st t1 t2 baseKey)

end ObjectStorage

/-- JS `a || b` on a nullable number: `null` and `0` are falsy. -/
def orDefault (o : Option Nat) (d : Nat) : Nat :=
  match o with
  | some t => if t = 0 then d else t
  | none => d

namespace CacheManager

/-- An entry of the in-process `memoryCache` map.  Values are kept as their
serialized bytes, so `Buffer.byteLength(JSON.stringify(value))` is the
length of `value`. -/
structure MemEntry where
  value : Bytes
  expiresAt : Nat
  sizeBytes : Nat
  deriving DecidableEq

/-- A row of the durable `cacheEntries` table; `expiresAt` and `sizeBytes`
are nullable columns. -/
structure DbEntry where
  value : Bytes
  expiresAt : Option Nat
  hitCount : Nat
  sizeBytes : Option Nat
  deriving DecidableEq

/-- The state of a `CacheManager` (CacheManager.js lines 7-19): config,
the two cache layers and the stats counters.  `totalMemoryBytes` is a JS
number that is incremented and decremented, so it is an integer, not a
natural number. -/
structure State where
  maxMemoryMB : Nat
  defaultTTL : Nat
  memoryCache : List (String × MemEntry)
  dbCache : List (String × DbEntry)
  hits : Nat
  misses : Nat
  evictions : Nat
  totalMemoryBytes : Int
  deriving DecidableEq

/-- CacheManager.js lines 146-158: bump the durable row's hit counter. -/
def incrementHitCount (db : List (String × DbEntry)) (key : String) :
    List (String × DbEntry) :=
  db.map (fun p => if p.1 = key then (p.1, { p.2 with hitCount := p.2.hitCount + 1 }) else p)

/-- The loop body of `evictIfNeeded` (CacheManager.js lines 188-196): scan
the map for the entry with the smallest `expiresAt`; the strict `<` keeps
the first minimum encountered.  The `Infinity` start value means the first
entry always becomes the initial candidate. -/
def findOldestFrom (best : String × MemEntry) :
    List (String × MemEntry) → String × MemEntry
  | [] => best
  | p :: rest =>
    findOldestFrom (if p.2.expiresAt < best.2.expiresAt then p else best) rest

def findOldest : List (String × MemEntry) → Option (String × MemEntry)
  | [] => none
  | p :: rest => some (findOldestFrom p rest)

/-- The `while` loop of `evictIfNeeded` (CacheManager.js lines 186-206),
with explicit fuel; each iteration removes one present key, so fuel equal
to the map size makes the fueled loop equal to the source's `while`. -/
def evictLoop (maxBytes : Int) :
    Nat → List (String × MemEntry) → Int → Nat →
    List (String × MemEntry) × Int × Nat
  | 0, cache, total, evs => (cache, total, evs)
  | fuel + 1, cache, total, evs =>
    if maxBytes < total ∧ cache ≠ [] then
      match findOldest cache with
      | some p =>
        evictLoop maxBytes fuel (mapDelete cache p.1)
          (total - p.2.sizeBytes) (evs + 1)
      | none => (cache, total, evs)
    else (cache, total, evs)

/-- CacheManager.js lines 183-207: `evictIfNeeded()`.  The durable layer is
not touched. -/
def evictIfNeeded (s : State) : State :=
  let maxBytes : Int := s.maxMemoryMB * 1024 * 1024
  let r := evictLoop maxBytes s.memoryCache.length s.memoryCache
    s.totalMemoryBytes s.evictions
  { s with memoryCache := r.1, totalMemoryBytes := r.2.1, evictions := r.2.2 }

/-- CacheManager.js lines 103-144: `set(key, value, ttlMs)`.  `ttlMs || defaultTTL`
is falsy-defaulting; the memory write adds the new entry's size to the
counter (without subtracting a replaced entry's size) and then evicts; the
durable upsert keeps an existing row's `hitCount`. -/
def set (s : State) (key : String) (value : Bytes) (ttlMs : Option Nat)
    (now : Nat) : State :=
  let expiresAt := now + orDefault ttlMs s.defaultTTL
  let sizeBytes := value.length
  let s1 := { s with
    memoryCache := (mapSet s.memoryCache key
      { value := value, expiresAt := expiresAt, sizeBytes := sizeBytes }),
    totalMemoryBytes := s.totalMemoryBytes + sizeBytes }
  let s2 := evictIfNeeded s1
  let db1 :=
    if (mapGet s2.dbCache key).isSome then
      s2.dbCache.map (fun p => if p.1 = key then
        (key, { p.2 with
                value := value
                expiresAt := some expiresAt
                sizeBytes := some sizeBytes }) else p)
    else s2.dbCache ++ [(key,
      { value := value, expiresAt := some expiresAt, hitCount := 0,
        sizeBytes := some sizeBytes })]
  { s2 with dbCache := db1 }

/-- CacheManager.js lines 70-100: the durable-layer half of `get`. -/
def getDb (s : State) (key : String) (now : Nat) : State × Option Bytes :=
  match mapGet s.dbCache key with
  | some e =>
    if e.expiresAt = none ∨ now < e.expiresAt.getD 0 then
      let promoted : MemEntry :=
        { value := e.value,
          expiresAt := orDefault e.expiresAt (now + s.defaultTTL),
          sizeBytes := e.sizeBytes.getD 0 }
      ({ s with
          hits := s.hits + 1
          memoryCache := mapSet s.memoryCache key promoted
          dbCache := incrementHitCount s.dbCache key }, some e.value)
    else
      ({ s with
          dbCache := mapDelete s.dbCache key
          misses := s.misses + 1 }, none)
  | none => ({ s with misses := s.misses + 1 }, none)

/-- CacheManager.js lines 57-101: `get(key)`.  A fresh in-process entry is a
hit; an expired one is deleted from the map (without adjusting
`totalMemoryBytes`) and the durable layer is consulted. -/
def get (s : State) (key : String) (now : Nat) : State × Option Bytes :=
  match mapGet s.memoryCache key with
  | some e =>
    if now < e.expiresAt then
      ({ s with
          hits := s.hits + 1
          dbCache := incrementHitCount s.dbCache key }, some e.value)
    else
      getDb { s with memoryCache := mapDelete s.memoryCache key } key now
  | none => getDb s key now

/-- CacheManager.js lines 160-170: `delete(key)` removes the entry from
both layers; `totalMemoryBytes` is not adjusted. -/
def delete (s : State) (key : String) : State :=
  { s with
    memoryCache := mapDelete s.memoryCache key
    dbCache := mapDelete s.dbCache key }

/-- CacheManager.js lines 172-181: `clear()`. -/
def clear (s : State) : State :=
  { s with memoryCache := [], totalMemoryBytes := 0, dbCache := [] }

/-- CacheManager.js lines 209-228: `cleanupExpired()` removes every
in-process entry with `expiresAt < now`, subtracting each removed size, and
deletes the durable rows whose (non-null) `expiresAt` is `< now`. -/
def cleanupExpired (s : State) (now : Nat) : State :=
  let removed := s.memoryCache.filter (fun p => decide (p.2.expiresAt < now))
  { s with
    memoryCache := s.memoryCache.filter (fun p => !decide (p.2.expiresAt < now)),
    totalMemoryBytes := s.totalMemoryBytes -
      (removed.map (fun p => (p.2.sizeBytes : Int))).sum,
    dbCache := s.dbCache.filter (fun p =>
      match p.2.expiresAt with
      | some t => !decide (t < now)
      | none => true) }

/-- The actual number of bytes held by the in-process layer: the sum of the
`sizeBytes` fields of the entries present in `memoryCache`. -/
def memBytes (s : State) : Int :=
  (s.memoryCache.map (fun p => (p.2.sizeBytes : Int))).sum

end CacheManager

namespace StorageManager

/-- A row of the `storageQuotas` table (part_005). -/
structure Quota where
  quotaType : String
  limitValue : Int
  currentValue : Int
  isExceeded : Bool
  deriving DecidableEq

/-- The slice of `StorageManager` state the quota claims touch: the quota
rows and the `profiles` table rows (profile names). -/
structure State where
  quotas : List Quota
  profiles : List String
  deriving DecidableEq

/-- `select ... where quotaType = t` (first matching row). -/
def findQuota : List Quota → String → Option Quota
  | [], _ => none
  | q :: rest, t => if q.quotaType = t then some q else findQuota rest t

/-- part_005 lines 514-520: `checkQuota(quotaType)` throws exactly when a
matching quota row exists with `currentValue >= limitValue`; it performs no
writes. -/
def checkQuota (s : State) (quotaType : String) : Except String Unit :=
  match findQuota s.quotas quotaType with
  | some q =>
    if q.limitValue ≤ q.currentValue then
      Except.error ("Quota exceeded for " ++ quotaType)
    else Except.ok ()
  | none => Except.ok ()

/-- part_005 lines 522-530: `updateQuotaUsage(quotaType, delta)` adds the
delta to every matching row and recomputes `isExceeded`. -/
def updateQuotaUsage (s : State) (quotaType : String) (delta : Int) : State :=
  { s with quotas := s.quotas.map (fun q =>
      if q.quotaType = quotaType then
        { q with
          currentValue := q.currentValue + delta
          isExceeded := decide (q.limitValue ≤ q.currentValue + delta) }
      else q) }

/-- part_005 lines 358-378: `createProfile(name)` checks the
`profile_count` quota first (a throw leaves the state untouched), then
inserts the profile row and bumps the quota.  The cache write of line 374
touches neither quotas nor profiles and is omitted. -/
def createProfile (s : State) (name : String) : State × Except String String :=
  match checkQuota s "profile_count" with
  | Except.error e => (s, Except.error e)
  | Except.ok _ =>
    let s1 := { s with profiles := s.profiles ++ [name] }
    let s2 := updateQuotaUsage s1 "profile_count" 1
    (s2, Except.ok name)

/-- The state after `k` successive `createProfile` calls. -/
def afterCreates (s : State) : Nat → State
  | 0 => s
  | k + 1 => (createProfile (afterCreates s k) (toString k)).1

/-- The outcome of the `(k+1)`-th `createProfile` call. -/
def createResult (s : State) (k : Nat) : Except String String :=
  (createProfile (afterCreates s k) (toString k)).2

/-- A fresh manager whose `profile_count` quota has limit `n` and current
value `0` (part_005 lines 342-356 seed exactly such a row). -/
def initState (n : Nat) : State :=
  { quotas := [{ quotaType := "profile_count", limitValue := (n : Int),
                 currentValue := 0, isExceeded := false }],
    profiles := [] }

end StorageManager

/-! ### Concrete fixtures for witnesses and counterexamples -/

/-- Concrete stand-ins for the external primitives, used by the concrete
evaluations below.  The gzip stand-in prepends a one-byte header: lossless,
but — like real gzip, whose fixed header and trailer are 18 bytes — it maps
a short input to a longer output.  The brotli and aes stand-ins are
involutions; the hash stand-in prints the bytes and is injective. -/
def sampleCfg : OSConfig where
  gzip := { comp := fun b => 0 :: b, decomp := fun b => b.drop 1 }
  brotli := { comp := List.reverse, decomp := List.reverse }
  aes := { enc := fun _ _ d => d.reverse, dec := fun _ _ d => d.reverse }
  sha256 := fun b => toString b

/-- A fixed 16-byte initialization vector. -/
def sampleIv : Bytes := List.replicate 16 0

/-- `store` options writing raw bytes with dedup off. -/
def rawStoreOpts : ObjectStorage.StoreOptions :=
  { compress := false, enableDedup := false }

/-- `retrieve` options reading raw bytes. -/
def rawRetrieveOpts : ObjectStorage.RetrieveOptions :=
  { decompress := false }

/-- `store` options exercising compression, dedup off. -/
def compressOpts : ObjectStorage.StoreOptions :=
  { compress := true, enableDedup := false }

/-- `store` options for the dedup scenario: raw bytes, dedup on. -/
def dedupOpts : ObjectStorage.StoreOptions := { compress := false }

/-- First store of the dedup scenario: payload `[1]` under logical key a. -/
def storeA : ObjectStorage.State × ObjectStorage.StoreResult :=
  ObjectStorage.store sampleCfg ⟨[], []⟩ ["a"] [1] dedupOpts sampleIv

/-- Second store of the dedup scenario: the same payload under key b. -/
def storeB : ObjectStorage.State × ObjectStorage.StoreResult :=
  ObjectStorage.store sampleCfg storeA.1 ["b"] [1] dedupOpts sampleIv

/-- Deleting key a after the deduplicated second store. -/
def deleteA : ObjectStorage.State × Bool :=
  ObjectStorage.delete storeB.1 ["warm", "a"] "warm"

/-- A store holding one object in the warm tier, indexed by its hash. -/
def moveFixture : ObjectStorage.State :=
  ⟨[(("warm", ["k"]), [9])], [("h", ["warm", "k"])]⟩

/-- A freshly initialized cache manager (default config). -/
def cache0 : CacheManager.State :=
  { maxMemoryMB := 100, defaultTTL := 3600000, memoryCache := [], dbCache := []
    hits := 0, misses := 0, evictions := 0, totalMemoryBytes := 0 }

/-- `set("a", 3 bytes)` then `delete("a")` on a fresh cache manager. -/
def cacheAfterDelete : CacheManager.State :=
  CacheManager.delete (CacheManager.set cache0 "a" [1, 2, 3] none 0) "a"

/-- A cache manager over budget (budget 0) with two live entries. -/
def evictFixture : CacheManager.State :=
  { maxMemoryMB := 0, defaultTTL := 3600000
    memoryCache := [("a", ⟨[1, 2], 20, 2⟩), ("b", ⟨[1, 2, 3], 10, 3⟩)]
    dbCache := [("d", ⟨[9], some 50, 0, some 1⟩)]
    hits := 0, misses := 0, evictions := 0, totalMemoryBytes := 5 }

/-! ### Association-list lemmas -/

section AListLemmas

variable {κ : Type} {ν : Type} [DecidableEq κ]

theorem mapGet_eq_none_of_not_mem_keys {l : List (κ × ν)} {k : κ}
    (h : k ∉ l.map Prod.fst) : mapGet l k = none := by
  induction l with
  | nil => rfl
  | cons p rest ih =>
    simp only [List.map_cons, List.mem_cons] at h
    push_neg at h
    have hp : ¬(p.1 = k) := fun hk => h.1 hk.symm
    simp [mapGet, hp, ih h.2]

theorem mapGet_override (l : List (κ × ν)) (k : κ) (v : ν) (k' : κ) :
    mapGet (l.map fun p => if p.1 = k then (k, v) else p) k' =
      if k' = k then (if (mapGet l k).isSome then some v else none)
      else mapGet l k' := by
  induction l with
  | nil => simp [mapGet]
  | cons p rest ih =>
    by_cases hp : p.1 = k
    · by_cases hk : k' = k
      · subst hk
        simp [mapGet, hp]
      · have hk2 : ¬(k = k') := fun he => hk he.symm
        have hp3 : ¬(p.1 = k') := by rw [hp]; exact hk2
        simp [mapGet, hp, hk, hk2, hp3, ih]
    · by_cases hk : k' = k
      · subst hk
        simp [mapGet, hp, ih]
      · simp [mapGet, hp, hk, ih]

theorem mapGet_append_single (l : List (κ × ν)) (k : κ) (v : ν) (k' : κ)
    (h : mapGet l k = none) :
    mapGet (l ++ [(k, v)]) k' = if k' = k then some v else mapGet l k' := by
  induction l with
  | nil =>
    by_cases hk : k' = k
    · simp [mapGet, hk]
    · have hk2 : ¬(k = k') := fun he => hk he.symm
      simp [mapGet, hk, hk2]
  | cons p rest ih =>
    simp only [mapGet] at h
    by_cases hp : p.1 = k'
    · have hk : ¬(k' = k) := by
        intro he; rw [he] at hp; simp [hp] at h
      simp [mapGet, hp, hk]
    · by_cases hpk : p.1 = k
      · simp [hpk] at h
      · simp only [List.cons_append, mapGet, hp, if_neg hp]
        exact ih (by simpa [hpk] using h)

/-- `mapSet` behaves as a functional update on lookups. -/
theorem mapGet_mapSet (l : List (κ × ν)) (k : κ) (v : ν) (k' : κ) :
    mapGet (mapSet l k v) k' = if k' = k then some v else mapGet l k' := by
  unfold mapSet
  by_cases h : (mapGet l k).isSome
  · simp [h, mapGet_override]
  · rw [if_neg h]
    exact mapGet_append_single l k v k'
      (Option.not_isSome_iff_eq_none.mp h)

theorem mapGet_mapSet_self (l : List (κ × ν)) (k : κ) (v : ν) :
    mapGet (mapSet l k v) k = some v := by
  simp [mapGet_mapSet]

theorem mapDelete_sublist (l : List (κ × ν)) (k : κ) :
    (mapDelete l k).Sublist l := by
  induction l with
  | nil => simp [mapDelete]
  | cons p rest ih =>
    by_cases hp : p.1 = k
    · simp only [mapDelete, if_pos hp]
      exact List.sublist_cons_self p rest
    · simpa [mapDelete, hp] using ih.cons₂ p

theorem mapDelete_of_get_none {l : List (κ × ν)} {k : κ}
    (h : mapGet l k = none) : mapDelete l k = l := by
  induction l with
  | nil => rfl
  | cons p rest ih =>
    simp only [mapGet] at h
    by_cases hp : p.1 = k
    · simp [hp] at h
    · simp only [mapDelete, if_neg hp]
      rw [ih (by simpa [hp] using h)]

theorem mapGet_mapDelete_self {l : List (κ × ν)} {k : κ}
    (hnd : (l.map Prod.fst).Nodup) : mapGet (mapDelete l k) k = none := by
  induction l with
  | nil => rfl
  | cons p rest ih =>
    simp only [List.map_cons, List.nodup_cons] at hnd
    by_cases hp : p.1 = k
    · simp only [mapDelete, if_pos hp]
      exact mapGet_eq_none_of_not_mem_keys (hp ▸ hnd.1)
    · simp [mapDelete, mapGet, hp, ih hnd.2]

theorem mapGet_mapDelete_ne (l : List (κ × ν)) {k k' : κ} (h : k' ≠ k) :
    mapGet (mapDelete l k) k' = mapGet l k' := by
  induction l with
  | nil => rfl
  | cons p rest ih =>
    by_cases hp : p.1 = k
    · have h1 : ¬(p.1 = k') := by rw [hp]; exact fun he => h he.symm
      have h2 : ¬(k = k') := fun he => h he.symm
      simp [mapDelete, mapGet, hp, h1, h2]
    · simp [mapDelete, mapGet, hp, ih]

theorem mem_mapDelete_iff {l : List (κ × ν)} {k : κ} {p : κ × ν}
    (hnd : (l.map Prod.fst).Nodup) :
    p ∈ mapDelete l k ↔ p ∈ l ∧ p.1 ≠ k := by
  induction l with
  | nil => simp [mapDelete]
  | cons q rest ih =>
    rw [List.map_cons] at hnd
    have h1 := (List.nodup_cons.mp hnd).1
    have h2 := (List.nodup_cons.mp hnd).2
    by_cases hq : q.1 = k
    · simp only [mapDelete, if_pos hq, List.mem_cons]
      constructor
      · intro hp
        refine ⟨Or.inr hp, fun hpk => h1 ?_⟩
        have hm : p.1 ∈ rest.map Prod.fst := List.mem_map_of_mem Prod.fst hp
        rw [hpk, ← hq] at hm
        exact hm
      · rintro ⟨hp | hp, hpk⟩
        · exact absurd (hp ▸ hq) hpk
        · exact hp
    · simp only [mapDelete, if_neg hq, List.mem_cons, ih h2]
      constructor
      · rintro (rfl | ⟨hp, hpk⟩)
        · exact ⟨Or.inl rfl, hq⟩
        · exact ⟨Or.inr hp, hpk⟩
      · rintro ⟨rfl | hp, hpk⟩
        · exact Or.inl rfl
        · exact Or.inr ⟨hp, hpk⟩

theorem mapDelete_length {l : List (κ × ν)} {k : κ}
    (h : (mapGet l k).isSome) : (mapDelete l k).length + 1 = l.length := by
  induction l with
  | nil => simp [mapGet] at h
  | cons p rest ih =>
    by_cases hp : p.1 = k
    · simp [mapDelete, hp]
    · simp only [mapGet, if_neg hp] at h
      simp [mapDelete, hp, ih h]

theorem mapGet_isSome_of_mem {l : List (κ × ν)} {p : κ × ν} (h : p ∈ l) :
    (mapGet l p.1).isSome := by
  induction l with
  | nil => simp at h
  | cons q rest ih =>
    rcases List.mem_cons.mp h with rfl | h
    · simp [mapGet]
    · by_cases hq : q.1 = p.1 <;> simp [mapGet, hq, ih h]

omit [DecidableEq κ] in
theorem mapGet_unique {l : List (κ × ν)} {k : κ} {a b : ν}
    (hnd : (l.map Prod.fst).Nodup) (ha : (k, a) ∈ l) (hb : (k, b) ∈ l) :
    a = b := by
  induction l with
  | nil => simp at ha
  | cons q rest ih =>
    rw [List.map_cons] at hnd
    have h1 := (List.nodup_cons.mp hnd).1
    have h2 := (List.nodup_cons.mp hnd).2
    rcases List.mem_cons.mp ha with hqa | ha
    · rcases List.mem_cons.mp hb with hqb | hb
      · rw [← hqa] at hqb
        exact (congrArg Prod.snd hqb).symm
      · exfalso
        have hm : (k, b).1 ∈ rest.map Prod.fst := List.mem_map_of_mem Prod.fst hb
        rw [← hqa] at h1
        exact h1 hm
    · rcases List.mem_cons.mp hb with hqb | hb
      · exfalso
        have hm : (k, a).1 ∈ rest.map Prod.fst := List.mem_map_of_mem Prod.fst ha
        rw [← hqb] at h1
        exact h1 hm
      · exact ih h2 ha hb

end AListLemmas

/-! ### Lemmas about the eviction loop -/

namespace CacheManager

theorem findOldestFrom_eq_or_mem (best : String × MemEntry) :
    ∀ l : List (String × MemEntry),
      findOldestFrom best l = best ∨ findOldestFrom best l ∈ l
  | [] => Or.inl rfl
  | p :: rest => by
    simp only [findOldestFrom]
    by_cases hp : p.2.expiresAt < best.2.expiresAt
    · rw [if_pos hp]
      rcases findOldestFrom_eq_or_mem p rest with h | h
      · exact Or.inr (List.mem_cons.mpr (Or.inl h))
      · exact Or.inr (List.mem_cons_of_mem p h)
    · rw [if_neg hp]
      rcases findOldestFrom_eq_or_mem best rest with h | h
      · exact Or.inl h
      · exact Or.inr (List.mem_cons_of_mem p h)

theorem findOldestFrom_le (best : String × MemEntry) :
    ∀ l : List (String × MemEntry),
      (findOldestFrom best l).2.expiresAt ≤ best.2.expiresAt ∧
      ∀ p ∈ l, (findOldestFrom best l).2.expiresAt ≤ p.2.expiresAt
  | [] => ⟨le_refl _, by simp⟩
  | p :: rest => by
    simp only [findOldestFrom]
    by_cases hp : p.2.expiresAt < best.2.expiresAt
    · rw [if_pos hp]
      obtain ⟨h1, h2⟩ := findOldestFrom_le p rest
      exact ⟨h1.trans hp.le, by
        intro q hq
        rcases List.mem_cons.mp hq with rfl | hq
        · exact h1
        · exact h2 q hq⟩
    · rw [if_neg hp]
      obtain ⟨h1, h2⟩ := findOldestFrom_le best rest
      exact ⟨h1, by
        intro q hq
        rcases List.mem_cons.mp hq with rfl | hq
        · exact h1.trans (not_lt.mp hp)
        · exact h2 q hq⟩

theorem findOldest_mem {l : List (String × MemEntry)} {m : String × MemEntry}
    (h : findOldest l = some m) : m ∈ l := by
  cases l with
  | nil => simp [findOldest] at h
  | cons p rest =>
    simp only [findOldest, Option.some_inj] at h
    rcases findOldestFrom_eq_or_mem p rest with h2 | h2
    · exact List.mem_cons.mpr (Or.inl (h.symm.trans h2))
    · exact h ▸ List.mem_cons_of_mem p h2

theorem findOldest_le {l : List (String × MemEntry)} {m : String × MemEntry}
    (h : findOldest l = some m) :
    ∀ p ∈ l, m.2.expiresAt ≤ p.2.expiresAt := by
  cases l with
  | nil => simp [findOldest] at h
  | cons p rest =>
    simp only [findOldest, Option.some_inj] at h
    obtain ⟨h1, h2⟩ := findOldestFrom_le p rest
    intro q hq
    rcases List.mem_cons.mp hq with rfl | hq
    · exact h ▸ h1
    · exact h ▸ h2 q hq

theorem findOldest_isSome {l : List (String × MemEntry)} (h : l ≠ []) :
    (findOldest l).isSome := by
  cases l with
  | nil => exact absurd rfl h
  | cons p rest => simp [findOldest]

/-- Entries surviving the eviction loop were present before it. -/
theorem evictLoop_subset (maxB : Int) :
    ∀ (fuel : Nat) (cache : List (String × MemEntry)) (total : Int) (evs : Nat)
      (p : String × MemEntry),
      p ∈ (evictLoop maxB fuel cache total evs).1 → p ∈ cache
  | 0, cache, total, evs, p => fun hp => hp
  | fuel + 1, cache, total, evs, p => by
    simp only [evictLoop]
    by_cases hc : maxB < total ∧ cache ≠ []
    · rw [if_pos hc]
      cases hm : findOldest cache with
      | none => exact fun hp => hp
      | some m =>
        intro hp
        exact (mapDelete_sublist cache m.1).subset
          (evictLoop_subset maxB fuel _ _ _ p hp)
    · rw [if_neg hc]; exact fun hp => hp

/-- Every entry the eviction loop removes has an `expiresAt` no later than
any entry that survives the loop. -/
theorem evictLoop_min_removed (maxB : Int) :
    ∀ (fuel : Nat) (cache : List (String × MemEntry)) (total : Int) (evs : Nat),
      (cache.map Prod.fst).Nodup →
      ∀ k e, (k, e) ∈ cache → (k, e) ∉ (evictLoop maxB fuel cache total evs).1 →
      ∀ k' e', (k', e') ∈ (evictLoop maxB fuel cache total evs).1 →
        e.expiresAt ≤ e'.expiresAt
  | 0, cache, total, evs => by
    intro _ k e hin hout _ _ _
    exact absurd hin hout
  | fuel + 1, cache, total, evs => by
    intro hnd k e hin hout k' e' hin'
    simp only [evictLoop] at hout hin'
    by_cases hc : maxB < total ∧ cache ≠ []
    · rw [if_pos hc] at hout hin'
      cases hm : findOldest cache with
      | none =>
        rw [hm] at hout hin'
        exact absurd hin hout
      | some m =>
        rw [hm] at hout hin'
        have hnd' : ((mapDelete cache m.1).map Prod.fst).Nodup :=
          hnd.sublist ((mapDelete_sublist cache m.1).map Prod.fst)
        by_cases hkd : (k, e) ∈ mapDelete cache m.1
        · exact evictLoop_min_removed maxB fuel _ _ _ hnd' k e hkd hout k' e' hin'
        · have hkm : k = m.1 := by
            by_contra hne
            exact hkd ((mem_mapDelete_iff hnd).mpr ⟨hin, hne⟩)
          have hme : e = m.2 := by
            have hm1 : (m.1, m.2) ∈ cache := findOldest_mem hm
            exact mapGet_unique hnd (hkm ▸ hin) hm1
          have hsurv : (k', e') ∈ cache :=
            (mapDelete_sublist cache m.1).subset
              (evictLoop_subset maxB fuel _ _ _ _ hin')
          rw [hme]
          exact findOldest_le hm (k', e') hsurv
    · rw [if_neg hc] at hout hin'
      exact absurd hin hout

/-- With fuel at least the cache size, the loop runs to its exit
condition: the tracked total is within budget or the cache is empty. -/
theorem evictLoop_exit (maxB : Int) :
    ∀ (fuel : Nat) (cache : List (String × MemEntry)) (total : Int) (evs : Nat),
      cache.length ≤ fuel →
      (evictLoop maxB fuel cache total evs).2.1 ≤ maxB ∨
        (evictLoop maxB fuel cache total evs).1 = []
  | 0, cache, total, evs => by
    intro hlen
    have : cache = [] := List.length_eq_zero.mp (Nat.le_zero.mp hlen)
    subst this
    exact Or.inr rfl
  | fuel + 1, cache, total, evs => by
    intro hlen
    simp only [evictLoop]
    by_cases hc : maxB < total ∧ cache ≠ []
    · rw [if_pos hc]
      cases hm : findOldest cache with
      | none =>
        have := findOldest_isSome hc.2
        rw [hm] at this
        simp at this
      | some m =>
        have hmem : (mapGet cache m.1).isSome :=
          mapGet_isSome_of_mem (findOldest_mem hm)
        have hlen' : (mapDelete cache m.1).length ≤ fuel := by
          have := mapDelete_length hmem
          omega
        exact evictLoop_exit maxB fuel _ _ _ hlen'
    · rw [if_neg hc]
      push_neg at hc
      by_cases ht : maxB < total
      · exact Or.inr (hc ht)
      · exact Or.inl (not_lt.mp ht)

/-- A loop whose entry condition fails does not run. -/
theorem evictLoop_no_op (maxB : Int) (fuel : Nat)
    (cache : List (String × MemEntry)) (total : Int) (evs : Nat)
    (h : ¬ maxB < total) :
    evictLoop maxB fuel cache total evs = (cache, total, evs) := by
  cases fuel with
  | zero => rfl
  | succ n =>
    simp only [evictLoop]
    rw [if_neg (fun hc => h hc.1)]

end CacheManager

/-! ### Object-store lemmas -/

namespace ObjectStorage

theorem baseKeyOf_cons (t : String) (key : Key) (hkey : key ≠ []) :
    baseKeyOf (t :: key) = key := by
  have h2 : 2 ≤ (t :: key).length := by
    cases key with
    | nil => exact absurd rfl hkey
    | cons a l => simp [List.length_cons]
  simp only [baseKeyOf, if_pos h2, List.drop_succ_cons, List.drop_zero]

/-- When dedup is off or the content hash is not yet indexed, `store`
takes its non-deduplicated path. -/
theorem store_miss_eq (cfg : OSConfig) (s : State) (key : Key) (data : Bytes)
    (opts : StoreOptions) (iv : Bytes)
    (hd : opts.enableDedup = false ∨
      mapGet s.deduplicationMap (cfg.sha256 data) = none) :
    store cfg s key data opts iv =
      storeNew cfg s key data opts iv
        (if opts.enableDedup then some (cfg.sha256 data) else none) := by
  rcases hd with hd | hd
  · simp [store, hd]
  · by_cases he : opts.enableDedup
    · simp [store, he, hd]
    · simp [store, he]

end ObjectStorage

/-! ### Claim theorems -/

/-- C1: for every payload `P` and every combination of
`compress`/`encrypt` (with a key supplied, and dedup off or the content
not yet indexed), `store` then `retrieve` with the matching tier and
options returns exactly `P`.  The proof goes through precisely because
`retrieve` undoes encryption (strip the 16-byte iv, decipher) before
decompressing, mirroring `store`, which compresses before encrypting.
The zlib and aes hypotheses are the round-trip contracts of the external
codecs. -/
theorem store_retrieve_roundtrip
    (cfg : OSConfig) (s : ObjectStorage.State) (key : Key) (P iv : Bytes)
    (tier alg ek : String) (cm en ed : Bool)
    (hgzip : ∀ b, cfg.gzip.decomp (cfg.gzip.comp b) = b)
    (hbrotli : ∀ b, cfg.brotli.decomp (cfg.brotli.comp b) = b)
    (haes : ∀ k i d, cfg.aes.dec k i (cfg.aes.enc k i d) = d)
    (hiv : iv.length = 16)
    (hkey : key ≠ [])
    (hd : ed = false ∨ mapGet s.deduplicationMap (cfg.sha256 P) = none) :
    ObjectStorage.retrieve cfg
      (ObjectStorage.store cfg s key P
        { tier := tier, compress := cm, compressionAlgorithm := alg,
          encrypt := en, encryptionKey := some ek, enableDedup := ed } iv).1
      (ObjectStorage.store cfg s key P
        { tier := tier, compress := cm, compressionAlgorithm := alg,
          encrypt := en, encryptionKey := some ek, enableDedup := ed } iv).2.key
      tier
      { decompress := cm, compressionAlgorithm := alg,
        decrypt := en, decryptionKey := some ek } = some P := by
  have htake : ∀ X : Bytes, (iv ++ X).take 16 = iv := by
    intro X
    rw [← hiv]
    exact List.take_left iv X
  have hdrop : ∀ X : Bytes, (iv ++ X).drop 16 = X := by
    intro X
    rw [← hiv]
    exact List.drop_left iv X
  rw [ObjectStorage.store_miss_eq cfg s key P _ iv hd]
  cases cm <;> cases en <;> by_cases halg : alg = "brotli" <;>
    simp [ObjectStorage.storeNew, ObjectStorage.retrieve,
      ObjectStorage.transformForStore, ObjectStorage.compressData,
      ObjectStorage.decompressData, ObjectStorage.baseKeyOf_cons tier key hkey,
      mapGet_mapSet_self, halg, htake, hdrop, haes, hgzip, hbrotli]

/-- Witness for C1: a concrete compressed and encrypted round trip. -/
theorem store_retrieve_roundtrip_witness :
    (∀ b, sampleCfg.gzip.decomp (sampleCfg.gzip.comp b) = b) ∧
    (∀ k i d, sampleCfg.aes.dec k i (sampleCfg.aes.enc k i d) = d) ∧
    sampleIv.length = 16 ∧ (["k"] : Key) ≠ [] ∧
    ObjectStorage.retrieve sampleCfg
      (ObjectStorage.store sampleCfg ⟨[], []⟩ ["k"] [1, 2, 3]
        { tier := "warm", compress := true, compressionAlgorithm := "gzip",
          encrypt := true, encryptionKey := some "0123", enableDedup := false }
        sampleIv).1
      (ObjectStorage.store sampleCfg ⟨[], []⟩ ["k"] [1, 2, 3]
        { tier := "warm", compress := true, compressionAlgorithm := "gzip",
          encrypt := true, encryptionKey := some "0123", enableDedup := false }
        sampleIv).2.key
      "warm"
      { decompress := true, compressionAlgorithm := "gzip",
        decrypt := true, decryptionKey := some "0123" } = some [1, 2, 3] :=
  ⟨fun b => rfl, fun k i d => by simp [sampleCfg], by decide, by decide,
   store_retrieve_roundtrip sampleCfg ⟨[], []⟩ ["k"] [1, 2, 3] sampleIv
     "warm" "gzip" "0123" true true false
     (fun b => rfl) (fun b => by simp [sampleCfg])
     (fun k i d => by simp [sampleCfg]) (by decide) (by decide)
     (Or.inl rfl)⟩

/-- C9: a `store` call with `encrypt = true` but no `encryptionKey` does
not encrypt — the bytes written to the tier are the (optionally
compressed) plaintext with no iv prepended — yet the result still reports
`encrypted = true`: the flag echoes the option (part_007 line 180), not
whether encryption ran (line 140 requires both). -/
theorem store_encrypt_without_key
    (cfg : OSConfig) (s : ObjectStorage.State) (key : Key) (data iv : Bytes)
    (tier alg : String) (cm ed : Bool)
    (hd : ed = false ∨ mapGet s.deduplicationMap (cfg.sha256 data) = none) :
    mapGet (ObjectStorage.store cfg s key data
        { tier := tier, compress := cm, compressionAlgorithm := alg,
          encrypt := true, encryptionKey := none, enableDedup := ed } iv).1.files
      (ObjectStorage.getTierDirectory tier, key) =
      some (if cm then ObjectStorage.compressData cfg alg data else data) ∧
    (ObjectStorage.store cfg s key data
        { tier := tier, compress := cm, compressionAlgorithm := alg,
          encrypt := true, encryptionKey := none, enableDedup := ed } iv).2.encrypted
      = some true := by
  rw [ObjectStorage.store_miss_eq cfg s key data _ iv hd]
  constructor
  · simp [ObjectStorage.storeNew, ObjectStorage.transformForStore,
      mapGet_mapSet_self]
  · simp [ObjectStorage.storeNew]

/-- Witness for C9: compressed store with `encrypt = true`, key absent. -/
theorem store_encrypt_without_key_witness :
    ((false : Bool) = false ∨
      mapGet (⟨[], []⟩ : ObjectStorage.State).deduplicationMap
        (sampleCfg.sha256 [5, 6]) = none) ∧
    (mapGet (ObjectStorage.store sampleCfg ⟨[], []⟩ ["k"] [5, 6]
        { tier := "warm", compress := true, compressionAlgorithm := "gzip",
          encrypt := true, encryptionKey := none, enableDedup := false }
        sampleIv).1.files
      (ObjectStorage.getTierDirectory "warm", ["k"]) =
      some (if true then ObjectStorage.compressData sampleCfg "gzip" [5, 6]
        else [5, 6]) ∧
    (ObjectStorage.store sampleCfg ⟨[], []⟩ ["k"] [5, 6]
        { tier := "warm", compress := true, compressionAlgorithm := "gzip",
          encrypt := true, encryptionKey := none, enableDedup := false }
        sampleIv).2.encrypted = some true) :=
  ⟨Or.inl rfl,
   store_encrypt_without_key sampleCfg ⟨[], []⟩ ["k"] [5, 6] sampleIv
     "warm" "gzip" true false (Or.inl rfl)⟩

/-- C2 counterexample: the claimed lower bound `0 ≤ compressionRatio` fails.
The gzip stand-in of `sampleCfg` is lossless (first conjunct) but adds a
header byte, as real gzip adds its fixed 18-byte header and trailer; on the
one-byte payload `[7]` the stored bytes are longer than the input and
`store` reports `compressionRatio = 1 - 2/1 = -1 < 0`. -/
theorem store_compressionRatio_counterexample :
    sampleCfg.gzip.decomp (sampleCfg.gzip.comp [7]) = [7] ∧
    (ObjectStorage.store sampleCfg ⟨[], []⟩ ["k"] [7] compressOpts
      sampleIv).2.compressionRatio = some (-1) := by
  constructor
  · rfl
  · simp only [ObjectStorage.store, ObjectStorage.storeNew,
      ObjectStorage.compressData, sampleCfg, compressOpts]
    rw [if_neg (by decide : ¬("gzip" = "brotli"))]
    norm_num

/-- C2 amended: `store` reports
`compressionRatio = 1 - compressedSize/originalSize` when
`originalSize > 0` and `0` for a zero-length input; the ratio is always
`≤ 1`, and it is `≥ 0` exactly when the codec did not expand the payload —
which compression does not guarantee, so the claimed unconditional lower
bound `0 ≤ ratio` does not hold (it fails whenever the compressed output
is longer than the input). -/
theorem store_compressionRatio_spec
    (cfg : OSConfig) (s : ObjectStorage.State) (key : Key) (data iv : Bytes)
    (opts : ObjectStorage.StoreOptions)
    (hd : opts.enableDedup = false ∨
      mapGet s.deduplicationMap (cfg.sha256 data) = none) :
    (ObjectStorage.store cfg s key data opts iv).2.compressionRatio =
      some (if 0 < data.length then
        1 - (ObjectStorage.storedLength cfg data opts : ℚ) / (data.length : ℚ)
      else 0) ∧
    (∀ q, (ObjectStorage.store cfg s key data opts iv).2.compressionRatio =
        some q →
      q ≤ 1 ∧
      (data.length = 0 → q = 0) ∧
      (ObjectStorage.storedLength cfg data opts ≤ data.length → 0 ≤ q) ∧
      (0 < data.length → data.length < ObjectStorage.storedLength cfg data opts →
        q < 0)) := by
  rw [ObjectStorage.store_miss_eq cfg s key data opts iv hd]
  have hqeq : (ObjectStorage.storeNew cfg s key data opts iv
      (if opts.enableDedup then some (cfg.sha256 data) else none)).2.compressionRatio =
      some (if 0 < data.length then
        1 - (ObjectStorage.storedLength cfg data opts : ℚ) / (data.length : ℚ)
      else 0) := by
    simp [ObjectStorage.storeNew, ObjectStorage.storedLength]
  refine ⟨hqeq, ?_⟩
  intro q hq
  rw [hqeq, Option.some_inj] at hq
  by_cases hlen : 0 < data.length
  · rw [if_pos hlen] at hq
    have hos : (0 : ℚ) < (data.length : ℚ) := by exact_mod_cast hlen
    have hcs : (0 : ℚ) ≤ (ObjectStorage.storedLength cfg data opts : ℚ) :=
      Nat.cast_nonneg _
    refine ⟨?_, ?_, ?_, ?_⟩
    · rw [← hq]
      have : (0 : ℚ) ≤ (ObjectStorage.storedLength cfg data opts : ℚ) /
          (data.length : ℚ) := div_nonneg hcs hos.le
      linarith
    · intro h0
      omega
    · intro hle
      rw [← hq]
      have : (ObjectStorage.storedLength cfg data opts : ℚ) /
          (data.length : ℚ) ≤ 1 := by
        rw [div_le_one hos]
        exact_mod_cast hle
      linarith
    · intro _ hgt
      rw [← hq]
      have : 1 < (ObjectStorage.storedLength cfg data opts : ℚ) /
          (data.length : ℚ) := by
        rw [lt_div_iff₀ hos, one_mul]
        exact_mod_cast hgt
      linarith
  · rw [if_neg hlen] at hq
    have h0 : data.length = 0 := by omega
    refine ⟨by rw [← hq]; norm_num, fun _ => hq.symm, fun _ => by
      rw [← hq], fun hpos _ => absurd hpos hlen⟩

/-- Witness for C2 (amended) on the expanding concrete codec. -/
theorem store_compressionRatio_spec_witness :
    (compressOpts.enableDedup = false ∨
      mapGet (⟨[], []⟩ : ObjectStorage.State).deduplicationMap
        (sampleCfg.sha256 [7]) = none) ∧
    ((ObjectStorage.store sampleCfg ⟨[], []⟩ ["k"] [7] compressOpts
        sampleIv).2.compressionRatio =
      some (if 0 < ([7] : Bytes).length then
        1 - (ObjectStorage.storedLength sampleCfg [7] compressOpts : ℚ) /
          (([7] : Bytes).length : ℚ)
      else 0) ∧
    (∀ q, (ObjectStorage.store sampleCfg ⟨[], []⟩ ["k"] [7] compressOpts
        sampleIv).2.compressionRatio = some q →
      q ≤ 1 ∧
      (([7] : Bytes).length = 0 → q = 0) ∧
      (ObjectStorage.storedLength sampleCfg [7] compressOpts ≤
        ([7] : Bytes).length → 0 ≤ q) ∧
      (0 < ([7] : Bytes).length →
        ([7] : Bytes).length < ObjectStorage.storedLength sampleCfg [7] compressOpts →
        q < 0))) :=
  ⟨Or.inl rfl,
   store_compressionRatio_spec sampleCfg ⟨[], []⟩ ["k"] [7] sampleIv
     compressOpts (Or.inl rfl)⟩

/-- C3 counterexample: after storing payload `[1]` under key a and again
under key b (dedup on), the second call does return `deduplicated = true`
and `storedSize = 0`, but no alias for the new logical key is recorded
anywhere: the dedup index still maps the hash to a's storage key only, and
`retrieve` under b's storage key throws NotFound while a's succeeds — so
"both logical keys resolve via retrieve" is false. -/
theorem dedup_alias_counterexample :
    storeB.2.deduplicated = true ∧
    storeB.2.storedSize = some 0 ∧
    storeB.2.key = ["warm", "a"] ∧
    mapGet storeB.1.deduplicationMap (sampleCfg.sha256 [1]) =
      some ["warm", "a"] ∧
    ObjectStorage.retrieve sampleCfg storeB.1 ["warm", "a"] "warm"
      rawRetrieveOpts = some [1] ∧
    ObjectStorage.retrieve sampleCfg storeB.1 ["warm", "b"] "warm"
      rawRetrieveOpts = none := by decide

/-- C3 amended: a second `store` of already-indexed content returns
`deduplicated = true`, `storedSize = 0` and the existing storage key as
both `key` and `path`; it performs no codec work and writes nothing — the
entire state is returned unchanged — and, in particular, the new logical
key is not recorded as an alias, so the content stays retrievable only
under the returned existing key. -/
theorem store_dedup_hit_spec
    (cfg : OSConfig) (s : ObjectStorage.State) (key : Key) (data iv : Bytes)
    (opts : ObjectStorage.StoreOptions) (existingKey : Key)
    (hd : opts.enableDedup = true)
    (hhit : mapGet s.deduplicationMap (cfg.sha256 data) = some existingKey) :
    ObjectStorage.store cfg s key data opts iv =
      (s, { key := existingKey, path := existingKey, tier := opts.tier,
            originalSize := data.length, deduplicated := true,
            dedupHash := some (cfg.sha256 data), storedSize := some 0,
            compressedSize := none, compressionRatio := none,
            compressed := none, encrypted := none,
            compressionAlgorithm := none }) := by
  simp [ObjectStorage.store, hd, hhit]

/-- Witness for C3 (amended): the concrete a/b dedup scenario. -/
theorem store_dedup_hit_spec_witness :
    dedupOpts.enableDedup = true ∧
    mapGet storeA.1.deduplicationMap (sampleCfg.sha256 [1]) =
      some ["warm", "a"] ∧
    ObjectStorage.store sampleCfg storeA.1 ["b"] [1] dedupOpts sampleIv =
      (storeA.1,
       { key := ["warm", "a"], path := ["warm", "a"], tier := dedupOpts.tier,
         originalSize := ([1] : Bytes).length, deduplicated := true,
         dedupHash := some (sampleCfg.sha256 [1]), storedSize := some 0,
         compressedSize := none, compressionRatio := none,
         compressed := none, encrypted := none,
         compressionAlgorithm := none }) :=
  ⟨by decide, by decide,
   store_dedup_hit_spec sampleCfg storeA.1 ["b"] [1] sampleIv dedupOpts
     ["warm", "a"] (by decide) (by decide)⟩

/-- C4 counterexample: with the same payload stored under a and b (the
second call deduplicated), deleting a removes the only physical object and
the dedup index entry even though b was "aliased" to it: afterwards
neither a's nor b's key retrieves anything — "deleting A leaves B
retrievable" is false, and the index entry is gone after this single
delete. -/
theorem delete_alias_counterexample :
    deleteA.2 = true ∧
    deleteA.1.deduplicationMap = [] ∧
    ObjectStorage.retrieve sampleCfg deleteA.1 ["warm", "a"] "warm"
      rawRetrieveOpts = none ∧
    ObjectStorage.retrieve sampleCfg deleteA.1 ["warm", "b"] "warm"
      rawRetrieveOpts = none := by decide

/-- C4 amended: `delete` has no alias counting — it always unlinks the
key's physical object (a subsequent `retrieve` of the key reports
NotFound) and always drops the first dedup index entry that references the
storage key; deleting an already-absent key is still not an error: the
call returns `true` and leaves the file map unchanged. -/
theorem delete_spec
    (cfg : OSConfig) (s : ObjectStorage.State) (key : Key) (tier : String)
    (ropts : ObjectStorage.RetrieveOptions)
    (hnd : (s.files.map Prod.fst).Nodup) :
    (ObjectStorage.delete s key tier).2 = true ∧
    ObjectStorage.retrieve cfg (ObjectStorage.delete s key tier).1 key tier
      ropts = none ∧
    (ObjectStorage.delete s key tier).1.files =
      mapDelete s.files
        (ObjectStorage.getTierDirectory tier, ObjectStorage.baseKeyOf key) ∧
    (ObjectStorage.delete s key tier).1.deduplicationMap =
      removeFirstByValue s.deduplicationMap key ∧
    (mapGet s.files
        (ObjectStorage.getTierDirectory tier, ObjectStorage.baseKeyOf key) =
          none →
      (ObjectStorage.delete s key tier).1.files = s.files) := by
  refine ⟨rfl, ?_, rfl, rfl, ?_⟩
  · simp only [ObjectStorage.delete, ObjectStorage.retrieve]
    rw [mapGet_mapDelete_self hnd]
  · intro h
    simp only [ObjectStorage.delete]
    exact mapDelete_of_get_none h

/-- Witness for C4 (amended) on the concrete post-dedup store. -/
theorem delete_spec_witness :
    ((storeB.1.files.map Prod.fst).Nodup) ∧
    ((ObjectStorage.delete storeB.1 ["warm", "a"] "warm").2 = true ∧
    ObjectStorage.retrieve sampleCfg
      (ObjectStorage.delete storeB.1 ["warm", "a"] "warm").1 ["warm", "a"]
      "warm" rawRetrieveOpts = none ∧
    (ObjectStorage.delete storeB.1 ["warm", "a"] "warm").1.files =
      mapDelete storeB.1.files
        (ObjectStorage.getTierDirectory "warm",
          ObjectStorage.baseKeyOf ["warm", "a"]) ∧
    (ObjectStorage.delete storeB.1 ["warm", "a"] "warm").1.deduplicationMap =
      removeFirstByValue storeB.1.deduplicationMap ["warm", "a"] ∧
    (mapGet storeB.1.files
        (ObjectStorage.getTierDirectory "warm",
          ObjectStorage.baseKeyOf ["warm", "a"]) = none →
      (ObjectStorage.delete storeB.1 ["warm", "a"] "warm").1.files =
        storeB.1.files)) :=
  ⟨by decide,
   delete_spec sampleCfg storeB.1 ["warm", "a"] "warm" rawRetrieveOpts
     (by decide)⟩

/-- C5 counterexample: `store` writes with a single `fs.writeFile` directly
to the final tier path (part_007 lines 158-162); there is no temporary
file and no rename.  If the write is interrupted after 1 of 3 bytes, a
subsequent `retrieve` for that key neither fully succeeds nor reports
NotFound: it returns the half-written object `[1]`. -/
theorem store_atomicity_counterexample :
    ObjectStorage.retrieve sampleCfg
      (ObjectStorage.storeInterruptedWrite sampleCfg ⟨[], []⟩ ["k"] [1, 2, 3]
        rawStoreOpts sampleIv 1)
      ["warm", "k"] "warm" rawRetrieveOpts = some [1] ∧
    ([1] : Bytes) ≠ [1, 2, 3] := by decide

/-- C5 amended: `store` commits nothing atomically: it writes the
transformed bytes directly to the final tier path, so a write that fails
after `k` bytes leaves the `k`-byte prefix visible — a subsequent
`retrieve` for the key returns that partial content instead of NotFound —
while the dedup index update, which would have run afterwards, never
happens. -/
theorem store_interrupted_write_spec
    (cfg : OSConfig) (s : ObjectStorage.State) (key : Key) (data : Bytes)
    (opts : ObjectStorage.StoreOptions) (iv : Bytes) (k : Nat)
    (hkey : key ≠ []) :
    ObjectStorage.retrieve cfg
      (ObjectStorage.storeInterruptedWrite cfg s key data opts iv k)
      (opts.tier :: key) opts.tier
      { decompress := false, compressionAlgorithm := opts.compressionAlgorithm,
        decrypt := false, decryptionKey := none } =
      some ((ObjectStorage.transformForStore cfg data opts iv).take k) ∧
    (ObjectStorage.storeInterruptedWrite cfg s key data opts iv k).deduplicationMap
      = s.deduplicationMap := by
  constructor
  · simp only [ObjectStorage.storeInterruptedWrite, ObjectStorage.retrieve]
    rw [ObjectStorage.baseKeyOf_cons _ _ hkey, mapGet_mapSet_self]
    simp
  · rfl

/-- Witness for C5 (amended) at the concrete interrupted write. -/
theorem store_interrupted_write_spec_witness :
    (["k"] : Key) ≠ [] ∧
    (ObjectStorage.retrieve sampleCfg
      (ObjectStorage.storeInterruptedWrite sampleCfg ⟨[], []⟩ ["k"] [1, 2, 3]
        rawStoreOpts sampleIv 1)
      (rawStoreOpts.tier :: ["k"]) rawStoreOpts.tier
      { decompress := false,
        compressionAlgorithm := rawStoreOpts.compressionAlgorithm,
        decrypt := false, decryptionKey := none } =
      some ((ObjectStorage.transformForStore sampleCfg [1, 2, 3] rawStoreOpts
        sampleIv).take 1) ∧
    (ObjectStorage.storeInterruptedWrite sampleCfg ⟨[], []⟩ ["k"] [1, 2, 3]
        rawStoreOpts sampleIv 1).deduplicationMap =
      (⟨[], []⟩ : ObjectStorage.State).deduplicationMap) :=
  ⟨by decide,
   store_interrupted_write_spec sampleCfg ⟨[], []⟩ ["k"] [1, 2, 3]
     rawStoreOpts sampleIv 1 (by decide)⟩

/-- C8 counterexample: the local `moveTier` is a single atomic
`fs.rename` (part_007 lines 332-337), not copy-then-delete: across every
state a concurrent reader can observe (before the move, after the rename,
after the index update) there is no point at which the object exists in
both tiers — the window a copy-then-delete move necessarily opens — and
immediately after the first filesystem step the object is already gone
from the source tier. -/
theorem moveTier_copy_window_counterexample :
    ObjectStorage.someBothTiersState
      (ObjectStorage.moveTierStates moveFixture ["warm", "k"] "warm" "cold")
      "warm" "cold" ["k"] = false ∧
    mapGet (ObjectStorage.renameStep moveFixture "warm" "cold" ["k"]).files
      ("warm", ["k"]) = none := by decide

/-- C8 amended: `moveTier` relocates the object with one atomic rename and
then updates the dedup index: at every observable intermediate point the
object is present, with unchanged content, at exactly one of the two tier
locations (source before the rename, destination after), so a reader
checking the current location never finds neither; the dedup index update
happens after the rename as the final step. -/
theorem moveTier_reader_safety
    (s : ObjectStorage.State) (key : Key) (fromTier toTier : String)
    (b : Bytes)
    (hnd : (s.files.map Prod.fst).Nodup)
    (hdir : ObjectStorage.getTierDirectory fromTier ≠
      ObjectStorage.getTierDirectory toTier)
    (hfrom : mapGet s.files (ObjectStorage.getTierDirectory fromTier,
      ObjectStorage.baseKeyOf key) = some b)
    (hto : mapGet s.files (ObjectStorage.getTierDirectory toTier,
      ObjectStorage.baseKeyOf key) = none) :
    (∀ st ∈ ObjectStorage.moveTierStates s key fromTier toTier,
      mapGet st.files (ObjectStorage.getTierDirectory fromTier,
        ObjectStorage.baseKeyOf key) = some b ∨
      mapGet st.files (ObjectStorage.getTierDirectory toTier,
        ObjectStorage.baseKeyOf key) = some b) ∧
    (∀ st ∈ ObjectStorage.moveTierStates s key fromTier toTier,
      ObjectStorage.inBothTiers st fromTier toTier
        (ObjectStorage.baseKeyOf key) = false) ∧
    (ObjectStorage.renameStep s fromTier toTier
      (ObjectStorage.baseKeyOf key)).deduplicationMap = s.deduplicationMap ∧
    (ObjectStorage.moveTier s key fromTier toTier).1.deduplicationMap =
      updateFirstByValue s.deduplicationMap
        (fromTier :: ObjectStorage.baseKeyOf key)
        (toTier :: ObjectStorage.baseKeyOf key) := by
  have hne : (ObjectStorage.getTierDirectory fromTier,
      ObjectStorage.baseKeyOf key) ≠
      (ObjectStorage.getTierDirectory toTier, ObjectStorage.baseKeyOf key) :=
    fun h => hdir (congrArg Prod.fst h)
  have hfiles1 : (ObjectStorage.renameStep s fromTier toTier
      (ObjectStorage.baseKeyOf key)).files =
      mapSet (mapDelete s.files (ObjectStorage.getTierDirectory fromTier,
        ObjectStorage.baseKeyOf key))
        (ObjectStorage.getTierDirectory toTier, ObjectStorage.baseKeyOf key)
        b := by
    simp [ObjectStorage.renameStep, hfrom]
  have hdmap1 : (ObjectStorage.renameStep s fromTier toTier
      (ObjectStorage.baseKeyOf key)).deduplicationMap =
      s.deduplicationMap := by
    simp [ObjectStorage.renameStep, hfrom]
  have hget_to : mapGet (ObjectStorage.renameStep s fromTier toTier
      (ObjectStorage.baseKeyOf key)).files
      (ObjectStorage.getTierDirectory toTier, ObjectStorage.baseKeyOf key) =
      some b := by
    rw [hfiles1]
    exact mapGet_mapSet_self _ _ _
  have hget_from : mapGet (ObjectStorage.renameStep s fromTier toTier
      (ObjectStorage.baseKeyOf key)).files
      (ObjectStorage.getTierDirectory fromTier, ObjectStorage.baseKeyOf key) =
      none := by
    rw [hfiles1, mapGet_mapSet]
    rw [if_neg hne]
    exact mapGet_mapDelete_self hnd
  have hmove_files : (ObjectStorage.moveTier s key fromTier toTier).1.files =
      (ObjectStorage.renameStep s fromTier toTier
        (ObjectStorage.baseKeyOf key)).files := rfl
  refine ⟨?_, ?_, hdmap1, ?_⟩
  · intro st hst
    simp only [ObjectStorage.moveTierStates, List.mem_cons,
      List.not_mem_nil, or_false] at hst
    rcases hst with rfl | rfl | rfl
    · exact Or.inl hfrom
    · exact Or.inr hget_to
    · exact Or.inr (hmove_files ▸ hget_to)
  · intro st hst
    simp only [ObjectStorage.moveTierStates, List.mem_cons,
      List.not_mem_nil, or_false] at hst
    rcases hst with rfl | rfl | rfl
    · simp [ObjectStorage.inBothTiers, hto]
    · simp [ObjectStorage.inBothTiers, hget_from]
    · simp only [ObjectStorage.inBothTiers, ObjectStorage.moveTier]
      simp only [ObjectStorage.indexStep]
      simp [hget_from]
  · simp only [ObjectStorage.moveTier, ObjectStorage.indexStep]
    rw [hdmap1]

/-- Witness for C8 (amended) on the concrete one-object store. -/
theorem moveTier_reader_safety_witness :
    ((moveFixture.files.map Prod.fst).Nodup) ∧
    (ObjectStorage.getTierDirectory "warm" ≠
      ObjectStorage.getTierDirectory "cold") ∧
    (mapGet moveFixture.files (ObjectStorage.getTierDirectory "warm",
      ObjectStorage.baseKeyOf ["warm", "k"]) = some [9]) ∧
    (mapGet moveFixture.files (ObjectStorage.getTierDirectory "cold",
      ObjectStorage.baseKeyOf ["warm", "k"]) = none) ∧
    ((∀ st ∈ ObjectStorage.moveTierStates moveFixture ["warm", "k"] "warm"
        "cold",
      mapGet st.files (ObjectStorage.getTierDirectory "warm",
        ObjectStorage.baseKeyOf ["warm", "k"]) = some [9] ∨
      mapGet st.files (ObjectStorage.getTierDirectory "cold",
        ObjectStorage.baseKeyOf ["warm", "k"]) = some [9]) ∧
    (∀ st ∈ ObjectStorage.moveTierStates moveFixture ["warm", "k"] "warm"
        "cold",
      ObjectStorage.inBothTiers st "warm" "cold"
        (ObjectStorage.baseKeyOf ["warm", "k"]) = false) ∧
    (ObjectStorage.renameStep moveFixture "warm" "cold"
      (ObjectStorage.baseKeyOf ["warm", "k"])).deduplicationMap =
      moveFixture.deduplicationMap ∧
    (ObjectStorage.moveTier moveFixture ["warm", "k"] "warm"
      "cold").1.deduplicationMap =
      updateFirstByValue moveFixture.deduplicationMap
        ("warm" :: ObjectStorage.baseKeyOf ["warm", "k"])
        ("cold" :: ObjectStorage.baseKeyOf ["warm", "k"])) :=
  ⟨by decide, by decide, by decide, by decide,
   moveTier_reader_safety moveFixture ["warm", "k"] "warm" "cold" [9]
     (by decide) (by decide) (by decide) (by decide)⟩

/-- C7: whenever the in-process cache layer's tracked byte total exceeds
the configured memory budget, eviction repeatedly removes the entry with
the smallest `expiresAt` (soonest-to-expire first) until the tracked total
is within budget or the layer is empty; when the total is within budget it
does nothing; and it never removes or modifies any entry of the durable
layer. -/
theorem evictIfNeeded_spec (s : CacheManager.State)
    (hnd : (s.memoryCache.map Prod.fst).Nodup) :
    (CacheManager.evictIfNeeded s).dbCache = s.dbCache ∧
    ((CacheManager.evictIfNeeded s).totalMemoryBytes ≤
        (s.maxMemoryMB : Int) * 1024 * 1024 ∨
      (CacheManager.evictIfNeeded s).memoryCache = []) ∧
    (s.totalMemoryBytes ≤ (s.maxMemoryMB : Int) * 1024 * 1024 →
      CacheManager.evictIfNeeded s = s) ∧
    (∀ k e, (k, e) ∈ s.memoryCache →
      (k, e) ∉ (CacheManager.evictIfNeeded s).memoryCache →
      ∀ k' e', (k', e') ∈ (CacheManager.evictIfNeeded s).memoryCache →
        e.expiresAt ≤ e'.expiresAt) := by
  refine ⟨rfl, ?_, ?_, ?_⟩
  · simpa only [CacheManager.evictIfNeeded] using
      CacheManager.evictLoop_exit ((s.maxMemoryMB : Int) * 1024 * 1024)
        s.memoryCache.length s.memoryCache s.totalMemoryBytes s.evictions
        (le_refl _)
  · intro h
    simp only [CacheManager.evictIfNeeded]
    rw [CacheManager.evictLoop_no_op _ _ _ _ _ (not_lt.mpr h)]
  · intro k e hin hout k' e' hin'
    simp only [CacheManager.evictIfNeeded] at hout hin'
    exact CacheManager.evictLoop_min_removed
      ((s.maxMemoryMB : Int) * 1024 * 1024) s.memoryCache.length
      s.memoryCache s.totalMemoryBytes s.evictions hnd k e hin hout k' e' hin'

/-- Witness for C7 at a concrete over-budget cache. -/
theorem evictIfNeeded_spec_witness :
    ((evictFixture.memoryCache.map Prod.fst).Nodup) ∧
    ((CacheManager.evictIfNeeded evictFixture).dbCache = evictFixture.dbCache ∧
    ((CacheManager.evictIfNeeded evictFixture).totalMemoryBytes ≤
        (evictFixture.maxMemoryMB : Int) * 1024 * 1024 ∨
      (CacheManager.evictIfNeeded evictFixture).memoryCache = []) ∧
    (evictFixture.totalMemoryBytes ≤
        (evictFixture.maxMemoryMB : Int) * 1024 * 1024 →
      CacheManager.evictIfNeeded evictFixture = evictFixture) ∧
    (∀ k e, (k, e) ∈ evictFixture.memoryCache →
      (k, e) ∉ (CacheManager.evictIfNeeded evictFixture).memoryCache →
      ∀ k' e', (k', e') ∈ (CacheManager.evictIfNeeded evictFixture).memoryCache →
        e.expiresAt ≤ e'.expiresAt)) :=
  ⟨by decide, evictIfNeeded_spec evictFixture (by decide)⟩

/-- C10: the claimed invariant `totalMemoryBytes = sum of sizeBytes over
the in-process entries` is broken by `delete` (CacheManager.js lines
160-170), which removes the entry without adjusting the counter: after
`set("a", 3 bytes)` then `delete("a")` on a fresh manager the map is empty
but the counter still reads 3. -/
theorem totalMemoryBytes_delete_divergence :
    cacheAfterDelete.memoryCache = [] ∧
    CacheManager.memBytes cacheAfterDelete = 0 ∧
    cacheAfterDelete.totalMemoryBytes = 3 := by decide

/-! ### Quota lemmas and claim C6 -/

namespace StorageManager

/-- After `k` successful `createProfile` calls on a fresh manager with
limit `N ≥ 1`, there are `k` profiles and the quota counter reads `k`. -/
theorem afterCreates_eq (N : Nat) (hN : 1 ≤ N) :
    ∀ k, k ≤ N →
      afterCreates (initState N) k =
        { quotas := [{ quotaType := "profile_count", limitValue := (N : Int),
                       currentValue := (k : Int),
                       isExceeded := decide ((N : Int) ≤ (k : Int)) }],
          profiles := (List.range k).map toString } := by
  intro k
  induction k with
  | zero =>
    intro _
    have hd : decide ((N : Int) ≤ ((0 : Nat) : Int)) = false := by
      rw [decide_eq_false_iff_not]
      push_cast
      omega
    simp [afterCreates, initState, hd]
    omega
  | succ k ih =>
    intro hk1
    have hk : k ≤ N := Nat.le_of_succ_le hk1
    have hcheck : ¬((N : Int) ≤ (k : Int)) := by
      rw [Nat.cast_le]
      omega
    rw [afterCreates, ih hk]
    simp [createProfile, checkQuota, findQuota, updateQuotaUsage, hcheck,
      List.range_succ]

end StorageManager

/-- C6: `checkQuota` fails exactly when `currentValue >= limitValue` (and,
being a pure read, mutates nothing); on a fresh manager whose
`profile_count` quota has limit `N`, the first `N` `createProfile` calls
succeed, the `(N+1)`-th fails, leaves the state untouched (no profile row
inserted), and the manager ends with exactly `N` profiles. -/
theorem quota_enforcement (N : Nat) (hN : 1 ≤ N) :
    (∀ k, k < N → ∃ r,
      StorageManager.createResult (StorageManager.initState N) k = Except.ok r) ∧
    (∃ e, StorageManager.createResult (StorageManager.initState N) N =
      Except.error e) ∧
    StorageManager.afterCreates (StorageManager.initState N) (N + 1) =
      StorageManager.afterCreates (StorageManager.initState N) N ∧
    (StorageManager.afterCreates (StorageManager.initState N) N).profiles.length
      = N ∧
    (∀ s t q, StorageManager.findQuota s.quotas t = some q →
      ((∃ e, StorageManager.checkQuota s t = Except.error e) ↔
        q.limitValue ≤ q.currentValue)) := by
  have hsucc : ∀ k, k < N → ∃ r,
      StorageManager.createResult (StorageManager.initState N) k = Except.ok r := by
    intro k hk
    have hcheck : ¬((N : Int) ≤ (k : Int)) := by
      rw [Nat.cast_le]
      omega
    rw [StorageManager.createResult,
      StorageManager.afterCreates_eq N hN k (Nat.le_of_lt hk)]
    simp [StorageManager.createProfile, StorageManager.checkQuota,
      StorageManager.findQuota, hcheck]
  have hNstate := StorageManager.afterCreates_eq N hN N (le_refl N)
  have hfail : StorageManager.createResult (StorageManager.initState N) N =
      Except.error ("Quota exceeded for " ++ "profile_count") := by
    rw [StorageManager.createResult, hNstate]
    simp [StorageManager.createProfile, StorageManager.checkQuota,
      StorageManager.findQuota]
  refine ⟨hsucc, ⟨_, hfail⟩, ?_, ?_, ?_⟩
  · rw [StorageManager.afterCreates, hNstate]
    simp [StorageManager.createProfile, StorageManager.checkQuota,
      StorageManager.findQuota]
  · rw [hNstate]
    simp
  · intro s t q hq
    unfold StorageManager.checkQuota
    rw [hq]
    by_cases hle : q.limitValue ≤ q.currentValue
    · simp [hle]
    · simp [hle]

/-- Witness for C6 at `N = 2`. -/
theorem quota_enforcement_witness :
    1 ≤ 2 ∧
    ((∀ k, k < 2 → ∃ r,
      StorageManager.createResult (StorageManager.initState 2) k = Except.ok r) ∧
    (∃ e, StorageManager.createResult (StorageManager.initState 2) 2 =
      Except.error e) ∧
    StorageManager.afterCreates (StorageManager.initState 2) (2 + 1) =
      StorageManager.afterCreates (StorageManager.initState 2) 2 ∧
    (StorageManager.afterCreates (StorageManager.initState 2) 2).profiles.length
      = 2 ∧
    (∀ s t q, StorageManager.findQuota s.quotas t = some q →
      ((∃ e, StorageManager.checkQuota s t = Except.error e) ↔
        q.limitValue ≤ q.currentValue))) :=
  ⟨by decide, quota_enforcement 2 (by decide)⟩

end Codex
